import Mathlib

/-!
Shallow embedding of the trace persistence and replay-feed engine declared in
src/src/trace.h.  The repository ships only the header (declarations and
documentation comments); the behaviour of the writer and reader is therefore
modelled from the specification, as noted on each definition.  Machine
integers are embedded as `Nat`/`Int`; the `uint32_t` frame fields go through
an explicit `% 2^32` conversion.
-/

namespace Trace

/-- Modulus of the `uint32_t` fields of `trace_frame` (trace.h lines 38-39). -/
def U32 : Nat := 2 ^ 32

/-- Conversion applied when a value is stored into a `uint32_t` field:
C unsigned arithmetic reduces modulo `2^32`. -/
def uint32_store (n : Nat) : Nat := n % U32

/-- One trace event, from `struct trace_frame` (trace.h lines 36-54):
`global_time` and `thread_time` are `uint32_t`, `tid` is `pid_t`,
`ev` is the opaque `EncodedEvent` token supplied by the external event
collaborator (embedded as an opaque `Nat`), `rbc` is the `int64_t`
retired-branch count, and `recorded_regs` is the opaque
`struct user_regs_struct` register snapshot (embedded as a list of words). -/
structure trace_frame where
  global_time : Nat
  thread_time : Nat
  tid : Int
  ev : Nat
  rbc : Int
  recorded_regs : List Nat
deriving DecidableEq, Repr

/-- File identity captured by `struct stat` in `struct mmapped_file`
(trace.h line 67): size, modification time and inode. -/
structure FileStat where
  st_size : Nat
  st_mtime : Nat
  st_ino : Nat
deriving DecidableEq, Repr

/-- One memory-mapping record, from `struct mmapped_file` (trace.h lines
58-72).  `copied` is an `int` used as a boolean, embedded as `Bool`;
`start`/`end` are `void*` addresses, embedded as `Nat`; the C `char
filename[PATH_MAX]` is embedded as a string. -/
structure mmapped_file where
  time : Nat
  tid : Int
  copied : Bool
  filename : String
  stat : FileStat
  start : Nat
  end_addr : Nat
deriving DecidableEq, Repr

/-- One raw-data block recorded by `record_data`: the `global_time` of the
frame it is associated with, the tracee address it was read from, and its
bytes. -/
structure RawDataBlock where
  global_time : Nat
  addr : Nat
  bytes : List Nat
deriving DecidableEq, Repr

/-- Modelled from the spec: the recording-side session state (trace.c is not
under src/; the spec's §4.2 TraceWriter and §4.1 GlobalSequencer are made an
explicit state record).  `global_counter` is the last `global_time` handed
out by the sequencer; `thread_times` maps each thread id to the number of
frames attributed to it so far. -/
structure TraceWriterState where
  global_counter : Nat
  thread_times : List (Int × Nat)
  frames : List trace_frame
  raw_blocks : List RawDataBlock
  mmaps : List mmapped_file
deriving DecidableEq, Repr

/-- Fresh writer session: no frames recorded, sequencer at the fixed base 0
(the first frame receives `global_time` 1, the line-number base of
`get_global_time`, trace.h lines 105-118). -/
def initWriter : TraceWriterState :=
  { global_counter := 0, thread_times := [], frames := [], raw_blocks := [], mmaps := [] }

/-- Number of frames attributed to `tid` so far (0 for a thread never seen). -/
def threadTimeOf : List (Int × Nat) → Int → Nat
  | [], _ => 0
  | p :: rest, tid => if p.1 = tid then p.2 else threadTimeOf rest tid

/-- Update the per-thread frame count for `tid`. -/
def setThreadTime : List (Int × Nat) → Int → Nat → List (Int × Nat)
  | [], tid, v => [(tid, v)]
  | p :: rest, tid, v => if p.1 = tid then (tid, v) :: rest else p :: setThreadTime rest tid v

/-- Modelled from the spec: GlobalSequencer `next()` (§4.1) — "returns a value
exactly one greater than the previous call within a session"; "overflow is a
fatal condition" (`none`), the stamped values being `uint32_t`. -/
def sequencer_next (s : TraceWriterState) : Option (Nat × TraceWriterState) :=
  if s.global_counter + 1 < U32 then
    some (s.global_counter + 1, { s with global_counter := s.global_counter + 1 })
  else
    none

/-- Modelled from the spec: recording-side `get_global_time` (trace.h lines
105-118) — GlobalSequencer `current()`, "returns the last value handed out
... without mutating state"; the unchanged state is returned alongside. -/
def rec_global_time (s : TraceWriterState) : Nat × TraceWriterState :=
  (s.global_counter, s)

/-- Modelled from the spec: `record_event` (trace.h line 97, spec §4.2) —
"capture the thread's current register state and hardware counters, stamp
`global_time` via the sequencer, stamp `thread_time` by incrementing a
per-thread counter, append the resulting frame".  The captured event token,
counter and registers are taken as arguments (they come from the external
task/event collaborators).  Overflow of either `uint32_t` counter is fatal. -/
def record_event (s : TraceWriterState) (tid : Int) (ev : Nat) (rbc : Int)
    (regs : List Nat) : Option TraceWriterState :=
  match sequencer_next s with
  | none => none
  | some (g, s1) =>
      let t := threadTimeOf s1.thread_times tid + 1
      if t < U32 then
        some { s1 with
                thread_times := setThreadTime s1.thread_times tid t,
                frames := s1.frames ++
                  [{ global_time := uint32_store g, thread_time := uint32_store t,
                     tid := tid, ev := ev, rbc := rbc, recorded_regs := regs }] }
      else
        none

/-- Modelled from the spec: the reserved opaque event token that encodes
trace termination; this core treats event tokens as opaque, and the external
event collaborator reserves one value for the termination marker. -/
def termination_token : Nat := 0

/-- A frame is the distinguished terminal marker exactly when it carries the
reserved termination token. -/
def isTerminationFrame (f : trace_frame) : Bool := f.ev == termination_token

/-- Modelled from the spec: `record_trace_termination_event` (trace.h lines
98-103) — "append a distinguished terminal frame marking that recording
ended ...; the thread argument may be absent if no thread was live at the
time".  An absent thread is attributed to tid 0; no registers or counters
are captured. -/
def record_trace_termination_event (s : TraceWriterState) (t : Option Int) :
    Option TraceWriterState :=
  record_event s (t.getD 0) termination_token 0 []

/-- Modelled from the spec: `record_data` (trace.h lines 91-95) — "Store
`len` bytes of the data in `buf`, which was read from `t`'s address `addr`,
to the trace", "associated with the most recently recorded frame".  `len` is
the C `ssize_t`, embedded as `Int`; `len.toNat` bytes of the supplied buffer
are persisted. -/
def record_data (s : TraceWriterState) (addr : Nat) (len : Int) (buf : List Nat) :
    TraceWriterState :=
  { s with raw_blocks := s.raw_blocks ++
      [{ global_time := s.global_counter, addr := addr, bytes := buf.take len.toNat }] }

/-- Modelled from the spec: `record_mmapped_file_stats` (trace.h line 104) —
append the caller-built `mmapped_file` record to its sidecar stream. -/
def record_mmapped_file_stats (s : TraceWriterState) (file : mmapped_file) :
    TraceWriterState :=
  { s with mmaps := s.mmaps ++ [file] }

/-- Modelled from the spec: the recorder's discipline around a mapping
(spec §3 invariant) — the `mmapped_file` record is appended, and when
`copied` is set the region's bytes are also saved as a raw-data block via
`record_data` at the region's start address.  The recorder itself is not
under src/. -/
def record_mapping_with_content (s : TraceWriterState) (file : mmapped_file)
    (bytes : List Nat) : TraceWriterState :=
  if file.copied then
    record_data (record_mmapped_file_stats s file) file.start (Int.ofNat bytes.length) bytes
  else
    record_mmapped_file_stats s file

/-- One record of the on-disk frame stream as the reader sees it: either a
well-formed frame or structurally corrupt (truncated/partial) trailing data.
The spec distinguishes a clean end at a frame boundary from a trace that
ends mid-frame (§5). -/
inductive StreamItem where
  | frame (f : trace_frame)
  | corrupt
deriving DecidableEq, Repr

/-- Modelled from the spec: the replay-side session state (§4.3).  `time` is
the `global_time` of the frame just consumed (0 before any); `exhausted`
records the spec's `Exhausted` state, "reached when `try_read_next` first
reports absence or when a termination frame is consumed; no further reads
are valid afterward". -/
structure TraceReaderState where
  stream : List StreamItem
  cursor : Nat
  time : Nat
  exhausted : Bool
  raw_blocks : List RawDataBlock
  raw_cursor : Nat
  mmaps : List mmapped_file
  mmap_cursor : Nat
deriving DecidableEq, Repr

/-- Open a reader over a fully closed writer session (single-writer-then-
many-readers lifecycle, spec §5): the frame stream holds exactly the frames
written, all cursors at the start. -/
def openReader (w : TraceWriterState) : TraceReaderState :=
  { stream := w.frames.map StreamItem.frame, cursor := 0, time := 0, exhausted := false,
    raw_blocks := w.raw_blocks, raw_cursor := 0, mmaps := w.mmaps, mmap_cursor := 0 }

/-- Outcome of `try_read_next_trace`: a frame was read (nonzero return), the
trace is exhausted (zero return), or the call does not return (fatal
corruption, or a read after the `Exhausted` state was entered). -/
inductive TryResult where
  | present (f : trace_frame) (next : TraceReaderState)
  | absent (next : TraceReaderState)
  | fatal
deriving DecidableEq, Repr

/-- Modelled from the spec: `try_read_next_trace` (trace.h lines 134-137) —
"Return nonzero if the next trace frame was read, zero if not"; identical to
the strict read on well-formed data, end-of-stream is an ordinary control
value, structural corruption is fatal, and no read is valid after the
`Exhausted` state (absence already reported, or a termination frame
consumed). -/
def try_read_next_trace (r : TraceReaderState) : TryResult :=
  if r.exhausted then
    .fatal
  else
    match r.stream.get? r.cursor with
    | some (.frame f) =>
        .present f { r with cursor := r.cursor + 1, time := f.global_time,
                            exhausted := isTerminationFrame f }
    | some .corrupt => .fatal
    | none => .absent { r with exhausted := true }

/-- Modelled from the spec: `read_next_trace` (trace.h lines 130-133) —
"Read and return the next trace frame.  Succeed or don't return": the strict
read is fatal (`none`) both on structural corruption and when no frame
remains. -/
def read_next_trace (r : TraceReaderState) : Option (trace_frame × TraceReaderState) :=
  match try_read_next_trace r with
  | .present f r1 => some (f, r1)
  | .absent _ => none
  | .fatal => none

/-- Modelled from the spec: `peek_next_trace` (trace.h line 138) — "return
what the next `read_next`/`try_read_next` call would return, without
advancing the cursor"; one level of lookahead, no state is produced. -/
def peek_next_trace (r : TraceReaderState) : Option trace_frame :=
  if r.exhausted then
    none
  else
    match r.stream.get? r.cursor with
    | some (.frame f) => some f
    | some .corrupt => none
    | none => none

/-- Modelled from the spec: replay-side `get_global_time` / `current_time`
(trace.h lines 105-118) — "approximately the number of events that have been
... replayed", the line number of the event just replayed; returns the
position without mutating the reader state. -/
def get_global_time (r : TraceReaderState) : Nat × TraceReaderState :=
  (r.time, r)

/-- Outcome of `read_raw_data_direct`: the number of bytes written, the
tracee address outparam, the bytes placed in the caller's buffer and the
advanced reader state — or the error sentinel. -/
inductive RawReadResult where
  | ok (len : Nat) (addr : Nat) (bytes : List Nat) (next : TraceReaderState)
  | err
deriving DecidableEq, Repr

/-- The `ssize_t` return value of `read_raw_data_direct`: the byte count on
success, `-1` on error (trace.h lines 142-150). -/
def RawReadResult.retval : RawReadResult → Int
  | .ok len _ _ _ => Int.ofNat len
  | .err => -1

/-- Bytes written into the caller's buffer, when the call succeeded. -/
def RawReadResult.dataOut : RawReadResult → Option (List Nat)
  | .ok _ _ bytes _ => some bytes
  | .err => none

/-- The `rec_addr` outparam, when the call succeeded. -/
def RawReadResult.addrOut : RawReadResult → Option Nat
  | .ok _ addr _ _ => some addr
  | .err => none

/-- Modelled from the spec: `read_raw_data_direct` (trace.h lines 142-150) —
"Read the next raw-data record from the trace directly into `buf`, which is
of size `buf_size`, without allocating temporary storage.  The number of
bytes written into `buf` is returned, or -1 if an error occurred."  Errors
(size mismatch — a buffer smaller than the block —, or no block associated
with the frame) are the recoverable sentinel, never fatal. -/
def read_raw_data_direct (r : TraceReaderState) (t : trace_frame) (buf_size : Nat) :
    RawReadResult :=
  match r.raw_blocks.get? r.raw_cursor with
  | none => .err
  | some b =>
      if b.global_time = t.global_time ∧ b.bytes.length ≤ buf_size then
        .ok b.bytes.length b.addr b.bytes { r with raw_cursor := r.raw_cursor + 1 }
      else
        .err

/-- Modelled from the spec: `read_next_mmapped_file_stats` (trace.h line
139) — consume the next `mmapped_file` record from its own sidecar stream,
in recorded order, independent of frame consumption pacing. -/
def read_next_mmapped_file_stats (r : TraceReaderState) :
    Option (mmapped_file × TraceReaderState) :=
  match r.mmaps.get? r.mmap_cursor with
  | some m => some (m, { r with mmap_cursor := r.mmap_cursor + 1 })
  | none => none

/-- Arguments of one `record_event` call: the recorded thread, the opaque
event token, and the captured counter and register snapshot. -/
structure EventInput where
  tid : Int
  ev : Nat
  rbc : Int
  regs : List Nat
deriving DecidableEq, Repr

/-- Run a sequence of `record_event` calls (fatal overflow propagates). -/
def record_events : TraceWriterState → List EventInput → Option TraceWriterState
  | s, [] => some s
  | s, e :: rest =>
      match record_event s e.tid e.ev e.rbc e.regs with
      | some s1 => record_events s1 rest
      | none => none

/-- Consume `n` frames with the strict sequential reader, collecting them in
order (fatal outcomes propagate). -/
def read_frames : TraceReaderState → Nat → Option (List trace_frame × TraceReaderState)
  | r, 0 => some ([], r)
  | r, n + 1 =>
      match read_next_trace r with
      | some (f, r1) =>
          match read_frames r1 n with
          | some (fs, r2) => some (f :: fs, r2)
          | none => none
      | none => none

/-- The per-call payload persisted in a frame: thread id, opaque event
token, counter and register snapshot (everything except the two stamped
order counters). -/
def framePayload (f : trace_frame) : Int × Nat × Int × List Nat :=
  (f.tid, f.ev, f.rbc, f.recorded_regs)

/-- The same payload as supplied to `record_event`. -/
def inputPayload (e : EventInput) : Int × Nat × Int × List Nat :=
  (e.tid, e.ev, e.rbc, e.regs)

/-- Number of frames in `fs` carrying thread id `tid`. -/
def countTid (fs : List trace_frame) (tid : Int) : Nat :=
  (fs.filter (fun f => f.tid == tid)).length

/-- Ordering relation between an earlier and a later stored frame: distinct
`global_time`, non-decreasing `global_time`, and strictly increasing
`thread_time` when the two frames carry the same thread id. -/
def frameOrder (a b : trace_frame) : Prop :=
  a.global_time ≠ b.global_time ∧ a.global_time ≤ b.global_time ∧
    (a.tid = b.tid → a.thread_time < b.thread_time)

/-- Writer-session invariant: the stored frames are pairwise ordered, every
stamped counter is positive, bounded by the sequencer, and representable in
`uint32_t`, and each frame's `thread_time` is bounded by its thread's
current counter. -/
structure WriterInv (s : TraceWriterState) : Prop where
  ord : s.frames.Pairwise frameOrder
  gbound : ∀ f ∈ s.frames, 1 ≤ f.global_time ∧ f.global_time ≤ s.global_counter ∧
    f.global_time < U32 ∧ f.thread_time < U32
  tbound : ∀ f ∈ s.frames, f.thread_time ≤ threadTimeOf s.thread_times f.tid

/-- One public writer operation, as a step relation on session states. -/
inductive WriterStep : TraceWriterState → TraceWriterState → Prop where
  | event (s s' : TraceWriterState) (tid : Int) (ev : Nat) (rbc : Int) (regs : List Nat)
      (h : record_event s tid ev rbc regs = some s') : WriterStep s s'
  | termination (s s' : TraceWriterState) (t : Option Int)
      (h : record_trace_termination_event s t = some s') : WriterStep s s'
  | data (s : TraceWriterState) (addr : Nat) (len : Int) (buf : List Nat) :
      WriterStep s (record_data s addr len buf)
  | stats (s : TraceWriterState) (file : mmapped_file) :
      WriterStep s (record_mmapped_file_stats s file)
  | mapping (s : TraceWriterState) (file : mmapped_file) (bytes : List Nat) :
      WriterStep s (record_mapping_with_content s file bytes)

/-- Writer states reachable from a fresh session by public operations. -/
inductive Reachable : TraceWriterState → Prop where
  | init : Reachable initWriter
  | step {s s' : TraceWriterState} : Reachable s → WriterStep s s' → Reachable s'

/-- Three sample `record_event` calls for one thread (the spec's §8
scenario: system-call entry, system-call exit, process exit for thread
42). -/
def sampleInputs : List EventInput :=
  [{ tid := 42, ev := 5, rbc := 100, regs := [1, 2] },
   { tid := 42, ev := 6, rbc := 200, regs := [3, 4] },
   { tid := 42, ev := 7, rbc := 300, regs := [5, 6] }]

/-- Sample frame: first event of thread 42. -/
def fEx1 : trace_frame :=
  { global_time := 1, thread_time := 1, tid := 42, ev := 5, rbc := 100,
    recorded_regs := [1, 2] }

/-- Sample frame: second event of thread 42. -/
def fEx2 : trace_frame :=
  { global_time := 2, thread_time := 2, tid := 42, ev := 6, rbc := 200,
    recorded_regs := [3, 4] }

/-- Writer state after recording the first sample event. -/
def wEx1 : TraceWriterState :=
  { global_counter := 1, thread_times := [(42, 1)], frames := [fEx1],
    raw_blocks := [], mmaps := [] }

/-- Writer state after recording the first two sample events. -/
def wEx2 : TraceWriterState :=
  { global_counter := 2, thread_times := [(42, 2)], frames := [fEx1, fEx2],
    raw_blocks := [], mmaps := [] }

/-- Writer state whose sequencer has handed out one value. -/
def wSeq1 : TraceWriterState :=
  { global_counter := 1, thread_times := [], frames := [], raw_blocks := [], mmaps := [] }

/-- Sample reader holding the two sample frames. -/
def rEx : TraceReaderState :=
  { stream := [.frame fEx1, .frame fEx2], cursor := 0, time := 0, exhausted := false,
    raw_blocks := [], raw_cursor := 0, mmaps := [], mmap_cursor := 0 }

/-- The sample reader positioned at the clean end of its stream. -/
def rExEnd : TraceReaderState :=
  { stream := [.frame fEx1, .frame fEx2], cursor := 2, time := 2, exhausted := false,
    raw_blocks := [], raw_cursor := 0, mmaps := [], mmap_cursor := 0 }

/-- A reader whose stream ends in corrupted (truncated) trailing data. -/
def rExCor : TraceReaderState :=
  { stream := [.frame fEx1, .corrupt], cursor := 1, time := 1, exhausted := false,
    raw_blocks := [], raw_cursor := 0, mmaps := [], mmap_cursor := 0 }

/-- A 4096-byte raw-data block recorded at tracee address 0x400000,
associated with the frame at `global_time` 1 (the spec's §8 scenario). -/
def blockEx : RawDataBlock :=
  { global_time := 1, addr := 4194304, bytes := List.replicate 4096 7 }

/-- A reader holding the sample frame and the 4096-byte block. -/
def rRaw : TraceReaderState :=
  { stream := [.frame fEx1], cursor := 0, time := 0, exhausted := false,
    raw_blocks := [blockEx], raw_cursor := 0, mmaps := [], mmap_cursor := 0 }

/-- A freshly opened reader with its raw-data cursor positioned at block
index `i` (the position a replay driver reaches after consuming the first
`i` raw-data records). -/
def rawReaderAt (w : TraceWriterState) (i : Nat) : TraceReaderState :=
  { openReader w with raw_cursor := i }

/-- Sample file identity. -/
def statEx : FileStat := { st_size := 3, st_mtime := 4, st_ino := 5 }

/-- Sample filesystem: every path reports `statEx`. -/
def fsEx : String → Option FileStat := fun _ => some statEx

/-- Sample mapping record with embedded content (`copied = true`). -/
def mfT : mmapped_file :=
  { time := 0, tid := 42, copied := true, filename := "libexample.so", stat := statEx,
    start := 4096, end_addr := 8192 }

/-- Sample mapping record without embedded content (`copied = false`). -/
def mfF : mmapped_file :=
  { time := 0, tid := 42, copied := false, filename := "libexample.so", stat := statEx,
    start := 4096, end_addr := 8192 }

/-- A synthetic frame at the fresh writer's current `global_time` 0, used to
exercise the raw-data association check. -/
def tEx0 : trace_frame :=
  { global_time := 0, thread_time := 0, tid := 42, ev := 1, rbc := 0, recorded_regs := [] }

/-- Writer state after a lone termination event from a fresh session. -/
def wTerm : TraceWriterState :=
  { global_counter := 1, thread_times := [(0, 1)],
    frames := [{ global_time := 1, thread_time := 1, tid := 0, ev := termination_token,
                 rbc := 0, recorded_regs := [] }],
    raw_blocks := [], mmaps := [] }

lemma countTid_nil (t : Int) : countTid [] t = 0 := rfl

lemma countTid_cons (f : trace_frame) (fs : List trace_frame) (t : Int) :
    countTid (f :: fs) t = (if f.tid = t then 1 else 0) + countTid fs t := by
  by_cases h : f.tid = t <;> simp [countTid, List.filter_cons, h, Nat.add_comm]

lemma threadTimeOf_setThreadTime (tt : List (Int × Nat)) (tid : Int) (v : Nat) (t : Int) :
    threadTimeOf (setThreadTime tt tid v) t = if t = tid then v else threadTimeOf tt t := by
  induction tt with
  | nil =>
      by_cases h : t = tid
      · simp [setThreadTime, threadTimeOf, h]
      · have h2 : ¬ tid = t := fun hh => h hh.symm
        simp [setThreadTime, threadTimeOf, h, h2]
  | cons p rest ih =>
      by_cases hp : p.1 = tid
      · by_cases h : t = tid
        · simp [setThreadTime, hp, threadTimeOf, h]
        · have h2 : ¬ tid = t := fun hh => h hh.symm
          have hpt : ¬ p.1 = t := fun hh => h2 (hp ▸ hh)
          simp [setThreadTime, hp, threadTimeOf, h, h2, hpt]
      · by_cases h : p.1 = t
        · have htn : ¬ t = tid := fun hh => hp (h.symm ▸ hh ▸ rfl)
          simp [setThreadTime, hp, threadTimeOf, h, htn]
        · simp [setThreadTime, hp, threadTimeOf, h, ih]

/-- Unfolding of a successful `record_event`: the two overflow guards held
and the new state is the old one with the sequencer advanced, the per-thread
counter bumped, and the freshly stamped frame appended. -/
lemma record_event_spec {s : TraceWriterState} {tid : Int} {ev : Nat} {rbc : Int}
    {regs : List Nat} {s' : TraceWriterState}
    (h : record_event s tid ev rbc regs = some s') :
    s.global_counter + 1 < U32 ∧ threadTimeOf s.thread_times tid + 1 < U32 ∧
      s' = { s with
              global_counter := s.global_counter + 1,
              thread_times := setThreadTime s.thread_times tid
                (threadTimeOf s.thread_times tid + 1),
              frames := s.frames ++
                [{ global_time := s.global_counter + 1,
                   thread_time := threadTimeOf s.thread_times tid + 1,
                   tid := tid, ev := ev, rbc := rbc, recorded_regs := regs }] } := by
  unfold record_event sequencer_next at h
  by_cases hg : s.global_counter + 1 < U32
  · simp only [hg, if_true] at h
    by_cases ht : threadTimeOf s.thread_times tid + 1 < U32
    · simp only [ht, if_true, Option.some.injEq] at h
      refine ⟨hg, ht, ?_⟩
      rw [← h]
      simp [uint32_store, Nat.mod_eq_of_lt hg, Nat.mod_eq_of_lt ht]
    · simp only [ht, if_false] at h
      exact absurd h (by simp)
  · simp only [hg, if_false] at h
    exact absurd h (by simp)

/-- Converse direction: when the two guards hold, `record_event` succeeds
with exactly that state. -/
lemma record_event_eq {s : TraceWriterState} {tid : Int} (ev : Nat) (rbc : Int)
    (regs : List Nat)
    (hg : s.global_counter + 1 < U32)
    (ht : threadTimeOf s.thread_times tid + 1 < U32) :
    record_event s tid ev rbc regs = some
      { s with
         global_counter := s.global_counter + 1,
         thread_times := setThreadTime s.thread_times tid
           (threadTimeOf s.thread_times tid + 1),
         frames := s.frames ++
           [{ global_time := s.global_counter + 1,
              thread_time := threadTimeOf s.thread_times tid + 1,
              tid := tid, ev := ev, rbc := rbc, recorded_regs := regs }] } := by
  unfold record_event sequencer_next
  simp [hg, ht, uint32_store, Nat.mod_eq_of_lt hg, Nat.mod_eq_of_lt ht]

/-- A batch of `record_event` calls succeeds as long as the sequencer cannot
overflow: the per-thread counters never exceed the global one. -/
lemma record_events_total (inputs : List EventInput) :
    ∀ s : TraceWriterState, s.global_counter + inputs.length < U32 →
      (∀ t, threadTimeOf s.thread_times t ≤ s.global_counter) →
      ∃ w, record_events s inputs = some w := by
  induction inputs with
  | nil => exact fun s _ _ => ⟨s, rfl⟩
  | cons e rest ih =>
      intro s hg ht
      have hg1 : s.global_counter + 1 < U32 := by
        simp only [List.length_cons] at hg; omega
      have ht1 : threadTimeOf s.thread_times e.tid + 1 < U32 := by
        have := ht e.tid; omega
      obtain ⟨w, hw⟩ := ih
        { s with
           global_counter := s.global_counter + 1,
           thread_times := setThreadTime s.thread_times e.tid
             (threadTimeOf s.thread_times e.tid + 1),
           frames := s.frames ++
             [{ global_time := s.global_counter + 1,
                thread_time := threadTimeOf s.thread_times e.tid + 1,
                tid := e.tid, ev := e.ev, rbc := e.rbc, recorded_regs := e.regs }] }
        (by simp only [List.length_cons] at hg; simpa using by omega)
        (by
          intro t
          simp only [threadTimeOf_setThreadTime]
          by_cases h : t = e.tid
          · simp only [h, if_true]
            have := ht e.tid; omega
          · simp only [h, if_false]
            have := ht t; omega)
      exact ⟨w, by
        unfold record_events
        rw [record_event_eq e.ev e.rbc e.regs hg1 ht1]
        exact hw⟩

/-- Shape of a successful batch: the sequencer advances by the batch length,
the frames written are appended in order, their `global_time` values are the
contiguous range starting one past the initial sequencer value, their
payloads are exactly the call arguments, and each frame's `thread_time` is
the running same-thread count (offset by the per-thread count already in the
starting state). -/
lemma record_events_frames :
    ∀ (inputs : List EventInput) (s w : TraceWriterState),
      record_events s inputs = some w →
      w.global_counter = s.global_counter + inputs.length ∧
      ∃ new : List trace_frame,
        w.frames = s.frames ++ new ∧
        new.map (fun f => f.global_time) = List.range' (s.global_counter + 1) inputs.length ∧
        new.map framePayload = inputs.map inputPayload ∧
        (∀ i (hi : i < new.length),
          (new.get ⟨i, hi⟩).thread_time =
            threadTimeOf s.thread_times ((new.get ⟨i, hi⟩).tid) +
              countTid (new.take (i + 1)) ((new.get ⟨i, hi⟩).tid)) := by
  intro inputs
  induction inputs with
  | nil =>
      intro s w h
      simp only [record_events, Option.some.injEq] at h
      subst h
      exact ⟨by simp, [], by simp, by simp [List.range'], by simp, by intro i hi; simp at hi⟩
  | cons e rest ih =>
      intro s w h
      unfold record_events at h
      cases hrec : record_event s e.tid e.ev e.rbc e.regs with
      | none => rw [hrec] at h; exact absurd h (by simp)
      | some s1 =>
          rw [hrec] at h
          obtain ⟨hg, ht, hs1⟩ := record_event_spec hrec
          obtain ⟨hcount, new', hframes, hgt, hpay, htt⟩ := ih s1 w h
          subst hs1
          refine ⟨by simp at hcount ⊢; omega, ?_⟩
          set f0 : trace_frame :=
            { global_time := s.global_counter + 1,
              thread_time := threadTimeOf s.thread_times e.tid + 1,
              tid := e.tid, ev := e.ev, rbc := e.rbc, recorded_regs := e.regs } with hf0
          refine ⟨f0 :: new', ?_, ?_, ?_, ?_⟩
          · simpa using hframes
          · simp only [List.map_cons, List.length_cons, List.range'_succ]
            refine congrArg₂ (· :: ·) rfl ?_
            simpa using hgt
          · simp only [List.map_cons]
            refine congrArg₂ (· :: ·) rfl hpay
          · intro i hi
            cases i with
            | zero =>
                simp [f0, countTid_cons, countTid_nil]
            | succ j =>
                have hj : j < new'.length := by simpa using hi
                have hstep := htt j hj
                simp only [threadTimeOf_setThreadTime] at hstep
                simp only [List.get_eq_getElem] at hstep ⊢
                simp only [List.getElem_cons_succ, List.take_succ_cons, countTid_cons]
                rw [hstep]
                by_cases hsame : new'[j].tid = e.tid
                · rw [hsame]
                  simp [f0]
                  omega
                · have h2 : ¬ e.tid = new'[j].tid := fun hh => hsame hh.symm
                  rw [if_neg hsame, if_neg h2]
                  omega

/-- A successful strict read: the item under the cursor is a well-formed
frame, the cursor advances by one, `time` becomes the frame's `global_time`,
and the `Exhausted` state is entered exactly on a termination marker. -/
lemma read_next_trace_frame {r : TraceReaderState} {f : trace_frame}
    (hex : r.exhausted = false)
    (hget : r.stream.get? r.cursor = some (.frame f)) :
    read_next_trace r = some (f,
      { r with cursor := r.cursor + 1, time := f.global_time,
               exhausted := isTerminationFrame f }) := by
  unfold read_next_trace try_read_next_trace
  rw [hex, hget]
  simp

/-- Reading `fs.length` frames from a reader whose stream carries exactly
those (non-termination) frames from the cursor on: all of them come back in
order, the cursor advances accordingly, and `time` ends at the last frame's
`global_time`. -/
lemma read_frames_spec :
    ∀ (fs : List trace_frame) (r : TraceReaderState),
      r.exhausted = false →
      (∀ i (hi : i < fs.length),
        r.stream.get? (r.cursor + i) = some (.frame (fs.get ⟨i, hi⟩))) →
      (∀ f ∈ fs, isTerminationFrame f = false) →
      ∃ r', read_frames r fs.length = some (fs, r') ∧
        r'.cursor = r.cursor + fs.length ∧
        r'.exhausted = false ∧
        r'.time = (fs.map (fun f => f.global_time)).getLastD r.time ∧
        r'.stream = r.stream ∧ r'.raw_blocks = r.raw_blocks ∧
        r'.raw_cursor = r.raw_cursor := by
  intro fs
  induction fs with
  | nil =>
      intro r hex _ _
      exact ⟨r, rfl, by simp, hex, by simp [List.getLastD], rfl, rfl, rfl⟩
  | cons f rest ih =>
      intro r hex hstream hterm
      have hget : r.stream.get? r.cursor = some (.frame f) := by
        have := hstream 0 (by simp)
        simpa using this
      have hftermfalse : isTerminationFrame f = false := hterm f (by simp)
      have hread := read_next_trace_frame hex hget
      rw [hftermfalse] at hread
      obtain ⟨r', hrf, hcur, hex', htime, hstr, hraw, hrawc⟩ := ih
        { r with cursor := r.cursor + 1, time := f.global_time, exhausted := false }
        rfl
        (by
          intro i hi
          have := hstream (i + 1) (by simpa using hi)
          simp only [List.get] at this ⊢
          rw [show r.cursor + 1 + i = r.cursor + (i + 1) by omega]
          exact this)
        (fun g hg => hterm g (by simp [hg]))
      refine ⟨r', ?_, by simp at hcur ⊢; omega, hex', ?_, by simpa using hstr,
        by simpa using hraw, by simpa using hrawc⟩
      · show read_frames r (rest.length + 1) = some (f :: rest, r')
        unfold read_frames
        rw [hread]
        dsimp only
        rw [hrf]
      · rw [htime]
        dsimp only
        simp only [List.map_cons, List.getLastD_cons]

lemma getLastD_range' (n : Nat) : (List.range' 1 n).getLastD 0 = n := by
  cases n with
  | zero => rfl
  | succ m =>
      rw [List.range'_concat]
      rw [List.getLastD_concat]
      omega

/-- Round trip from a fresh writer session: `inputs.length` calls to
`record_event` (with event tokens distinct from the reserved termination
marker) succeed, and the strict sequential reader over the resulting trace
returns exactly the recorded frames, in order, with `global_time` the
contiguous range `1..N`, the payloads identical to the call arguments, each
frame's `thread_time` the running count of frames of its thread, and the
final position counter equal to `N`. -/
lemma roundtrip_master (inputs : List EventInput)
    (hne : ∀ e ∈ inputs, e.ev ≠ termination_token)
    (hlen : inputs.length < U32) :
    ∃ w r', record_events initWriter inputs = some w ∧
      read_frames (openReader w) inputs.length = some (w.frames, r') ∧
      w.frames.length = inputs.length ∧
      w.frames.map (fun f => f.global_time) = List.range' 1 inputs.length ∧
      w.frames.map framePayload = inputs.map inputPayload ∧
      (∀ i (hi : i < w.frames.length),
        (w.frames.get ⟨i, hi⟩).thread_time =
          countTid (w.frames.take (i + 1)) ((w.frames.get ⟨i, hi⟩).tid)) ∧
      r'.time = inputs.length := by
  obtain ⟨w, hw⟩ := record_events_total inputs initWriter
    (by simpa [initWriter] using hlen)
    (fun t => by simp [initWriter, threadTimeOf])
  obtain ⟨hcount, new, hframes, hgt, hpay, htt⟩ := record_events_frames inputs initWriter w hw
  have hframes' : w.frames = new := by simpa [initWriter] using hframes
  have hgt' : w.frames.map (fun f => f.global_time) = List.range' 1 inputs.length := by
    rw [hframes']
    simpa [initWriter] using hgt
  have hpay' : w.frames.map framePayload = inputs.map inputPayload := by
    rw [hframes']; exact hpay
  have hlen' : w.frames.length = inputs.length := by
    have := congrArg List.length hgt'
    simpa [List.length_range'] using this
  have htt' : ∀ i (hi : i < w.frames.length),
      (w.frames.get ⟨i, hi⟩).thread_time =
        countTid (w.frames.take (i + 1)) ((w.frames.get ⟨i, hi⟩).tid) := by
    intro i hi
    have hi2 : i < new.length := by rw [← hframes']; exact hi
    have hstep := htt i hi2
    have hz : ∀ t, threadTimeOf initWriter.thread_times t = 0 := fun t => rfl
    rw [hz] at hstep
    simp only [Nat.zero_add] at hstep
    revert hi
    rw [hframes']
    intro hi
    exact hstep
  have hterm : ∀ f ∈ w.frames, isTerminationFrame f = false := by
    intro f hf
    have : framePayload f ∈ w.frames.map framePayload := List.mem_map_of_mem _ hf
    rw [hpay'] at this
    obtain ⟨e, he, hpe⟩ := List.mem_map.mp this
    have hev : e.ev = f.ev := by
      have := hpe
      simp only [inputPayload, framePayload, Prod.mk.injEq] at this
      exact this.2.1
    have : f.ev ≠ termination_token := hev ▸ hne e he
    simpa [isTerminationFrame, beq_eq_false_iff_ne] using this
  obtain ⟨r', hread, hcur, hex', htime, _, _, _⟩ := read_frames_spec w.frames (openReader w)
    rfl
    (by
      intro i hi
      show (w.frames.map StreamItem.frame).get? (0 + i) = _
      rw [Nat.zero_add, List.get?_map, List.get?_eq_get hi]
      rfl)
    hterm
  refine ⟨w, r', hw, ?_, hlen', hgt', hpay', htt', ?_⟩
  · rw [← hlen']; exact hread
  · rw [htime]
    show (w.frames.map fun f => f.global_time).getLastD 0 = inputs.length
    rw [hgt', getLastD_range']

lemma writerInv_init : WriterInv initWriter :=
  ⟨List.Pairwise.nil, by simp [initWriter], by simp [initWriter]⟩

lemma writerInv_record_event {s s' : TraceWriterState} {tid : Int} {ev : Nat}
    {rbc : Int} {regs : List Nat} (inv : WriterInv s)
    (h : record_event s tid ev rbc regs = some s') : WriterInv s' := by
  obtain ⟨hg, ht, hs⟩ := record_event_spec h
  subst hs
  constructor
  · show (s.frames ++ [_]).Pairwise frameOrder
    rw [List.pairwise_append]
    refine ⟨inv.ord, by simp, ?_⟩
    intro a ha b hb
    simp only [List.mem_singleton] at hb
    subst hb
    obtain ⟨hga1, hga2, hga3, _⟩ := inv.gbound a ha
    refine ⟨?_, ?_, ?_⟩
    · show a.global_time ≠ s.global_counter + 1
      omega
    · show a.global_time ≤ s.global_counter + 1
      omega
    · intro htid
      have hta := inv.tbound a ha
      show a.thread_time < threadTimeOf s.thread_times tid + 1
      have : a.tid = tid := htid
      rw [this] at hta
      omega
  · intro f hf
    simp only [List.mem_append, List.mem_singleton] at hf
    show 1 ≤ f.global_time ∧ f.global_time ≤ s.global_counter + 1 ∧
      f.global_time < U32 ∧ f.thread_time < U32
    rcases hf with hf | hf
    · obtain ⟨h1, h2, h3, h4⟩ := inv.gbound f hf
      exact ⟨h1, by omega, h3, h4⟩
    · subst hf
      exact ⟨Nat.succ_le_succ (Nat.zero_le _), Nat.le_refl _, hg, ht⟩
  · intro f hf
    simp only [List.mem_append, List.mem_singleton] at hf
    show f.thread_time ≤ threadTimeOf (setThreadTime s.thread_times tid _) f.tid
    rw [threadTimeOf_setThreadTime]
    rcases hf with hf | hf
    · have hta := inv.tbound f hf
      by_cases hft : f.tid = tid
      · rw [if_pos hft]
        rw [hft] at hta
        omega
      · rw [if_neg hft]
        exact hta
    · subst hf
      rw [if_pos rfl]

lemma writerInv_record_mapping {s : TraceWriterState} (inv : WriterInv s)
    (file : mmapped_file) (bytes : List Nat) :
    WriterInv (record_mapping_with_content s file bytes) := by
  unfold record_mapping_with_content
  by_cases h : file.copied = true
  · rw [if_pos h]
    exact ⟨inv.ord, inv.gbound, inv.tbound⟩
  · rw [if_neg h]
    exact ⟨inv.ord, inv.gbound, inv.tbound⟩

lemma writerInv_step {s s' : TraceWriterState} (inv : WriterInv s)
    (h : WriterStep s s') : WriterInv s' := by
  cases h with
  | event s' tid ev rbc regs h2 => exact writerInv_record_event inv h2
  | termination s' t h2 => exact writerInv_record_event inv h2
  | data addr len buf => exact ⟨inv.ord, inv.gbound, inv.tbound⟩
  | stats file => exact ⟨inv.ord, inv.gbound, inv.tbound⟩
  | mapping file bytes => exact writerInv_record_mapping inv file bytes

lemma writerInv_reachable {s : TraceWriterState} (h : Reachable s) : WriterInv s := by
  induction h with
  | init => exact writerInv_init
  | step _ hstep ih => exact writerInv_step ih hstep

/-- A list of frames with pairwise strictly increasing `global_time`, all
values positive and representable in `uint32_t`, has fewer than `2^32`
entries. -/
lemma length_lt_of_strict_bounded (fs : List trace_frame)
    (hmono : fs.Pairwise (fun a b => a.global_time < b.global_time))
    (hbound : ∀ f ∈ fs, 1 ≤ f.global_time ∧ f.global_time < U32) :
    fs.length < U32 := by
  have hnd : (fs.map (fun f => f.global_time)).Nodup := by
    unfold List.Nodup
    rw [List.pairwise_map]
    exact hmono.imp (fun h => Nat.ne_of_lt h)
  have hsub : (fs.map (fun f => f.global_time)).toFinset ⊆ Finset.Ico 1 U32 := by
    intro x hx
    rw [List.mem_toFinset] at hx
    obtain ⟨f, hf, hfx⟩ := List.mem_map.mp hx
    obtain ⟨h1, h2⟩ := hbound f hf
    rw [Finset.mem_Ico]
    omega
  have hcard := Finset.card_le_card hsub
  rw [List.toFinset_card_of_nodup hnd, Nat.card_Ico] at hcard
  have hlm : (fs.map (fun f => f.global_time)).length = fs.length := List.length_map _ _
  have hU : 1 ≤ U32 := Nat.one_le_two_pow
  omega

/-- A successful direct raw-data read: when the next raw block is associated
with the frame and fits in the buffer, its bytes, length and address come
back and only the raw cursor advances. -/
lemma read_raw_data_direct_ok {r : TraceReaderState} {b : RawDataBlock}
    {t : trace_frame}
    (hb : r.raw_blocks.get? r.raw_cursor = some b)
    (hassoc : b.global_time = t.global_time)
    {buf_size : Nat} (hle : b.bytes.length ≤ buf_size) :
    read_raw_data_direct r t buf_size =
      RawReadResult.ok b.bytes.length b.addr b.bytes
        { r with raw_cursor := r.raw_cursor + 1 } := by
  unfold read_raw_data_direct
  rw [hb]
  dsimp only
  rw [if_pos ⟨hassoc, hle⟩]

/-- A successful non-strict read, analogously to `read_next_trace_frame`. -/
lemma try_read_next_trace_frame {r : TraceReaderState} {f : trace_frame}
    (hex : r.exhausted = false)
    (hget : r.stream.get? r.cursor = some (.frame f)) :
    try_read_next_trace r = TryResult.present f
      { r with cursor := r.cursor + 1, time := f.global_time,
               exhausted := isTerminationFrame f } := by
  unfold try_read_next_trace
  rw [hex, hget]
  simp

/-- C1: Record/replay round-trip — for every sequence of `record_event`
calls (ordinary event tokens distinct from the reserved termination marker,
and a `uint32_t`-representable count), the calls succeed and the strict
sequential reader returns exactly the recorded frames in order:
`global_time` is the contiguous range `1..N` from the fixed base, each
frame's thread id, opaque event token, hardware counter and register
snapshot are identical to the call arguments, and `thread_time` is the
per-thread running frame count. -/
theorem record_replay_roundtrip (inputs : List EventInput)
    (hne : ∀ e ∈ inputs, e.ev ≠ termination_token)
    (hlen : inputs.length < U32) :
    ∃ w r', record_events initWriter inputs = some w ∧
      read_frames (openReader w) inputs.length = some (w.frames, r') ∧
      w.frames.length = inputs.length ∧
      w.frames.map (fun f => f.global_time) = List.range' 1 inputs.length ∧
      w.frames.map framePayload = inputs.map inputPayload ∧
      (∀ i (hi : i < w.frames.length),
        (w.frames.get ⟨i, hi⟩).thread_time =
          countTid (w.frames.take (i + 1)) ((w.frames.get ⟨i, hi⟩).tid)) := by
  obtain ⟨w, r', h1, h2, h3, h4, h5, h6, _⟩ := roundtrip_master inputs hne hlen
  exact ⟨w, r', h1, h2, h3, h4, h5, h6⟩

/-- Witness for C1 at the three-event sample trace. -/
theorem record_replay_roundtrip_witness :
    ∃ w r', record_events initWriter sampleInputs = some w ∧
      read_frames (openReader w) sampleInputs.length = some (w.frames, r') ∧
      w.frames.length = sampleInputs.length ∧
      w.frames.map (fun f => f.global_time) = List.range' 1 sampleInputs.length ∧
      w.frames.map framePayload = sampleInputs.map inputPayload ∧
      (∀ i (hi : i < w.frames.length),
        (w.frames.get ⟨i, hi⟩).thread_time =
          countTid (w.frames.take (i + 1)) ((w.frames.get ⟨i, hi⟩).tid)) :=
  record_replay_roundtrip sampleInputs (by decide) (by decide)

/-- C2: Ordering invariant of every trace: in every writer session reachable
by the public writer operations (`record_event`,
`record_trace_termination_event`, and the auxiliary data and mapping
writes), the stored frames are pairwise ordered — no two frames share a
`global_time`, physical storage order is non-decreasing in `global_time`,
and for a fixed thread id the `thread_time` values are strictly
increasing. -/
theorem ordering_invariant_reachable (s : TraceWriterState) (h : Reachable s) :
    s.frames.Pairwise frameOrder :=
  (writerInv_reachable h).ord

/-- Witness for C2: the two-frame state reached by two sample events. -/
theorem ordering_invariant_reachable_witness : wEx2.frames.Pairwise frameOrder :=
  ordering_invariant_reachable wEx2
    (Reachable.step
      (Reachable.step Reachable.init
        (WriterStep.event initWriter wEx1 42 5 100 [1, 2] (by decide)))
      (WriterStep.event wEx1 wEx2 42 6 200 [3, 4] (by decide)))

/-- C3: Peek coherence: whenever `peek_next_trace` returns a frame, the next
`try_read_next_trace`/`read_next_trace` call returns exactly that frame (the
peek itself produces no new state, so the cursor has not advanced), and —
when a further frame follows and the peeked frame is not the terminal
marker — the read after that returns the following frame: nothing is
duplicated or skipped. -/
theorem peek_read_coherence (r : TraceReaderState) (f : trace_frame)
    (hpeek : peek_next_trace r = some f) :
    ∃ r1, try_read_next_trace r = TryResult.present f r1 ∧
      read_next_trace r = some (f, r1) ∧
      r1.cursor = r.cursor + 1 ∧
      (∀ g : trace_frame, r.stream.get? (r.cursor + 1) = some (StreamItem.frame g) →
        isTerminationFrame f = false →
        ∃ r2, read_next_trace r1 = some (g, r2) ∧ r2.cursor = r.cursor + 2) := by
  unfold peek_next_trace at hpeek
  by_cases hex : r.exhausted = true
  · rw [if_pos hex] at hpeek
    exact absurd hpeek (by simp)
  · have hexf : r.exhausted = false := by
      revert hex; cases r.exhausted <;> simp
    rw [if_neg hex] at hpeek
    cases hget : r.stream.get? r.cursor with
    | none =>
        rw [hget] at hpeek
        exact absurd hpeek (by simp)
    | some item =>
        cases item with
        | corrupt =>
            rw [hget] at hpeek
            exact absurd hpeek (by simp)
        | frame f0 =>
            rw [hget] at hpeek
            simp only [Option.some.injEq] at hpeek
            subst hpeek
            refine ⟨_, try_read_next_trace_frame hexf hget,
              read_next_trace_frame hexf hget, rfl, ?_⟩
            intro g hg hterm
            have hr2 := read_next_trace_frame
              (show (TraceReaderState.mk r.stream (r.cursor + 1) f0.global_time
                  (isTerminationFrame f0) r.raw_blocks r.raw_cursor r.mmaps
                  r.mmap_cursor).exhausted = false from hterm)
              (show (TraceReaderState.mk r.stream (r.cursor + 1) f0.global_time
                  (isTerminationFrame f0) r.raw_blocks r.raw_cursor r.mmaps
                  r.mmap_cursor).stream.get? (r.cursor + 1) =
                  some (StreamItem.frame g) from hg)
            exact ⟨_, hr2, rfl⟩

/-- Witness for C3 at the two-frame sample reader. -/
theorem peek_read_coherence_witness :
    ∃ r1, try_read_next_trace rEx = TryResult.present fEx1 r1 ∧
      read_next_trace rEx = some (fEx1, r1) ∧
      r1.cursor = rEx.cursor + 1 ∧
      (∀ g : trace_frame, rEx.stream.get? (rEx.cursor + 1) = some (StreamItem.frame g) →
        isTerminationFrame fEx1 = false →
        ∃ r2, read_next_trace r1 = some (g, r2) ∧ r2.cursor = rEx.cursor + 2) :=
  peek_read_coherence rEx fEx1 (by decide)

/-- C4: End-of-stream versus corruption: `try_read_next_trace` agrees with
the strict `read_next_trace` exactly on well-formed frames; at the clean end
of the stream the non-strict read returns the absent flag (a control value)
while the strict read is fatal; structural corruption is fatal on both
paths; and absence is reported exactly once — the state returned with the
absent flag is `Exhausted`, on which a further non-strict read is invalid
(fatal), not a second absence. -/
theorem try_read_end_vs_corruption :
    (∀ (r : TraceReaderState) (f : trace_frame) (r1 : TraceReaderState),
      try_read_next_trace r = TryResult.present f r1 ↔ read_next_trace r = some (f, r1)) ∧
    (∀ r : TraceReaderState, r.exhausted = false → r.stream.get? r.cursor = none →
      try_read_next_trace r = TryResult.absent { r with exhausted := true } ∧
      read_next_trace r = none ∧
      try_read_next_trace { r with exhausted := true } = TryResult.fatal) ∧
    (∀ r : TraceReaderState, r.exhausted = false →
      r.stream.get? r.cursor = some StreamItem.corrupt →
      try_read_next_trace r = TryResult.fatal ∧ read_next_trace r = none) := by
  refine ⟨?_, ?_, ?_⟩
  · intro r f r1
    unfold read_next_trace
    cases htry : try_read_next_trace r with
    | present f0 r0 => simp
    | absent r0 => simp
    | fatal => simp
  · intro r hex hget
    have htry : try_read_next_trace r = TryResult.absent { r with exhausted := true } := by
      unfold try_read_next_trace
      rw [hex, hget]
      simp
    refine ⟨htry, ?_, ?_⟩
    · unfold read_next_trace
      rw [htry]
    · unfold try_read_next_trace
      simp
  · intro r hex hget
    have htry : try_read_next_trace r = TryResult.fatal := by
      unfold try_read_next_trace
      rw [hex, hget]
      simp
    refine ⟨htry, ?_⟩
    unfold read_next_trace
    rw [htry]

/-- Witness for C4: clean end of the sample trace versus a corrupt trailing
record. -/
theorem try_read_end_vs_corruption_witness :
    (try_read_next_trace rExEnd = TryResult.absent { rExEnd with exhausted := true } ∧
      read_next_trace rExEnd = none ∧
      try_read_next_trace { rExEnd with exhausted := true } = TryResult.fatal) ∧
    (try_read_next_trace rExCor = TryResult.fatal ∧ read_next_trace rExCor = none) :=
  ⟨try_read_end_vs_corruption.2.1 rExEnd (by decide) (by decide),
   try_read_end_vs_corruption.2.2 rExCor (by decide) (by decide)⟩

/-- C5: Zero-copy raw-data retrieval: for a frame whose associated raw-data
block of length L is next in the raw stream, a caller buffer of size at
least L receives the block's exact bytes, the call returns L and reports the
recorded tracee address; a smaller buffer, or the absence of a block, yields
the negative sentinel `-1` instead of aborting. -/
theorem read_raw_data_direct_spec (r : TraceReaderState) (t : trace_frame)
    (b : RawDataBlock)
    (hb : r.raw_blocks.get? r.raw_cursor = some b)
    (hassoc : b.global_time = t.global_time) :
    (∀ buf_size : Nat, b.bytes.length ≤ buf_size →
      read_raw_data_direct r t buf_size =
        RawReadResult.ok b.bytes.length b.addr b.bytes
          { r with raw_cursor := r.raw_cursor + 1 } ∧
      (read_raw_data_direct r t buf_size).retval = Int.ofNat b.bytes.length ∧
      (read_raw_data_direct r t buf_size).dataOut = some b.bytes ∧
      (read_raw_data_direct r t buf_size).addrOut = some b.addr) ∧
    (∀ buf_size : Nat, buf_size < b.bytes.length →
      (read_raw_data_direct r t buf_size).retval = -1) ∧
    (∀ (r2 : TraceReaderState) (t2 : trace_frame) (buf_size : Nat),
      r2.raw_blocks.get? r2.raw_cursor = none →
      (read_raw_data_direct r2 t2 buf_size).retval = -1) := by
  refine ⟨?_, ?_, ?_⟩
  · intro buf_size hle
    have hok := read_raw_data_direct_ok hb hassoc hle
    exact ⟨hok, by rw [hok]; rfl, by rw [hok]; rfl, by rw [hok]; rfl⟩
  · intro buf_size hlt
    have hnc : ¬ (b.global_time = t.global_time ∧ b.bytes.length ≤ buf_size) :=
      fun hc => absurd hc.2 (by omega)
    unfold read_raw_data_direct
    rw [hb]
    dsimp only
    rw [if_neg hnc]
    rfl
  · intro r2 t2 buf_size hnone
    unfold read_raw_data_direct
    rw [hnone]
    rfl

/-- Witness for C5: the 4096-byte block scenario — a 4096-byte buffer
returns 4096 with the exact bytes and the recorded address 0x400000, a
10-byte buffer returns the sentinel. -/
theorem read_raw_data_direct_spec_witness :
    (read_raw_data_direct rRaw fEx1 4096).retval = Int.ofNat 4096 ∧
    (read_raw_data_direct rRaw fEx1 4096).dataOut = some (List.replicate 4096 7) ∧
    (read_raw_data_direct rRaw fEx1 4096).addrOut = some 4194304 ∧
    (read_raw_data_direct rRaw fEx1 10).retval = -1 := by
  have h := read_raw_data_direct_spec rRaw fEx1 blockEx rfl rfl
  have hlen : blockEx.bytes.length = 4096 := by
    rw [show blockEx.bytes = List.replicate 4096 7 from rfl, List.length_replicate]
  obtain ⟨hok, hsmall, _⟩ := h
  obtain ⟨_, hret, hdata, haddr⟩ := hok 4096 (by rw [hlen])
  refine ⟨?_, ?_, ?_, ?_⟩
  · rw [hret, hlen]
  · rw [hdata]; exact rfl
  · rw [haddr]; exact rfl
  · exact hsmall 10 (by rw [hlen]; omega)

/-- C6: Position counter: after consuming the N frames of a recorded trace,
the replay-side `get_global_time` returns exactly N (plus the fixed base
offset 0); the sequencer's `next` returns a value exactly one greater than
the current one and leaves the session at that value; and reading the
current position, on either side, returns the state unchanged (no
mutation). -/
theorem position_counter_spec :
    (∀ inputs : List EventInput, (∀ e ∈ inputs, e.ev ≠ termination_token) →
      inputs.length < U32 →
      ∃ w r', record_events initWriter inputs = some w ∧
        read_frames (openReader w) inputs.length = some (w.frames, r') ∧
        (get_global_time r').1 = inputs.length) ∧
    (∀ (s : TraceWriterState) (v : Nat) (s' : TraceWriterState),
      sequencer_next s = some (v, s') →
      v = (rec_global_time s).1 + 1 ∧ (rec_global_time s').1 = v) ∧
    (∀ s : TraceWriterState, (rec_global_time s).2 = s) ∧
    (∀ r : TraceReaderState, (get_global_time r).2 = r) := by
  refine ⟨?_, ?_, fun s => rfl, fun r => rfl⟩
  · intro inputs hne hlen
    obtain ⟨w, r', h1, h2, _, _, _, _, htime⟩ := roundtrip_master inputs hne hlen
    exact ⟨w, r', h1, h2, htime⟩
  · intro s v s' h
    unfold sequencer_next at h
    by_cases hg : s.global_counter + 1 < U32
    · rw [if_pos hg] at h
      simp only [Option.some.injEq, Prod.mk.injEq] at h
      obtain ⟨hv, hs⟩ := h
      subst hv
      subst hs
      exact ⟨rfl, rfl⟩
    · rw [if_neg hg] at h
      exact absurd h (by simp)

/-- Witness for C6: the three-event sample trace ends at position 3, and the
fresh sequencer hands out 1 and then stands at 1. -/
theorem position_counter_spec_witness :
    (∃ w r', record_events initWriter sampleInputs = some w ∧
      read_frames (openReader w) sampleInputs.length = some (w.frames, r') ∧
      (get_global_time r').1 = sampleInputs.length) ∧
    (1 = (rec_global_time initWriter).1 + 1 ∧ (rec_global_time wSeq1).1 = 1) :=
  ⟨position_counter_spec.1 sampleInputs (by decide) (by decide),
   position_counter_spec.2.1 initWriter 1 wSeq1 (by decide)⟩

/-- C7: Mapped-region content invariant: recording a mapping always makes
the record readable back from its sidecar stream; if `copied` is set, a
corresponding raw-data block holding the region's bytes exists at the
matching position and is retrievable through the zero-copy raw-data path
(with its recorded start address); if `copied` is not set, the stored file
identity equals what an external re-open of the recorded path reports, as
long as the path's identity is unchanged. -/
theorem mapped_region_content (s : TraceWriterState) (file : mmapped_file)
    (bytes : List Nat) (fs : String → Option FileStat)
    (hstat : fs file.filename = some file.stat) :
    ((record_mapping_with_content s file bytes).mmaps.get? s.mmaps.length = some file) ∧
    (file.copied = true →
      (record_mapping_with_content s file bytes).raw_blocks.get? s.raw_blocks.length =
        some { global_time := s.global_counter, addr := file.start, bytes := bytes } ∧
      (∀ (t : trace_frame) (buf_size : Nat), t.global_time = s.global_counter →
        bytes.length ≤ buf_size →
        (read_raw_data_direct
            (rawReaderAt (record_mapping_with_content s file bytes) s.raw_blocks.length)
            t buf_size).retval = Int.ofNat bytes.length ∧
        (read_raw_data_direct
            (rawReaderAt (record_mapping_with_content s file bytes) s.raw_blocks.length)
            t buf_size).dataOut = some bytes ∧
        (read_raw_data_direct
            (rawReaderAt (record_mapping_with_content s file bytes) s.raw_blocks.length)
            t buf_size).addrOut = some file.start)) ∧
    (file.copied = false →
      ∀ fs2 : String → Option FileStat, fs2 file.filename = fs file.filename →
        fs2 file.filename = some file.stat) := by
  have htake : bytes.take (Int.ofNat bytes.length).toNat = bytes := by
    show List.take bytes.length bytes = bytes
    exact List.take_length bytes
  have hmm : (record_mapping_with_content s file bytes).mmaps = s.mmaps ++ [file] := by
    unfold record_mapping_with_content record_data record_mmapped_file_stats
    by_cases hc : file.copied = true
    · rw [if_pos hc]
    · rw [if_neg hc]
  refine ⟨?_, ?_, ?_⟩
  · rw [hmm, List.get?_concat_length]
  · intro hc
    have hraw : (record_mapping_with_content s file bytes).raw_blocks =
        s.raw_blocks ++
          [{ global_time := s.global_counter, addr := file.start, bytes := bytes }] := by
      unfold record_mapping_with_content record_data record_mmapped_file_stats
      rw [if_pos hc]
      dsimp only
      rw [htake]
    have hget : (rawReaderAt (record_mapping_with_content s file bytes)
        s.raw_blocks.length).raw_blocks.get?
          (rawReaderAt (record_mapping_with_content s file bytes)
            s.raw_blocks.length).raw_cursor =
        some { global_time := s.global_counter, addr := file.start, bytes := bytes } := by
      show (record_mapping_with_content s file bytes).raw_blocks.get?
        s.raw_blocks.length = _
      rw [hraw, List.get?_concat_length]
    refine ⟨by rw [hraw, List.get?_concat_length], ?_⟩
    intro t buf_size ht hle
    have hok := read_raw_data_direct_ok hget ht.symm hle
    exact ⟨by rw [hok]; rfl, by rw [hok]; rfl, by rw [hok]; rfl⟩
  · intro _ fs2 hsame
    rw [hsame, hstat]

/-- Witness for C7: a copied mapping from a fresh session makes its two
bytes retrievable via the raw-data path; the uncopied variant's stored
identity matches what the sample filesystem reports for its path. -/
theorem mapped_region_content_witness :
    ((record_mapping_with_content initWriter mfT [9, 8]).mmaps.get? 0 = some mfT) ∧
    ((read_raw_data_direct
        (rawReaderAt (record_mapping_with_content initWriter mfT [9, 8]) 0)
        tEx0 2).dataOut = some [9, 8]) ∧
    ((read_raw_data_direct
        (rawReaderAt (record_mapping_with_content initWriter mfT [9, 8]) 0)
        tEx0 2).addrOut = some 4096) ∧
    (fsEx mfF.filename = some mfF.stat) := by
  have hT := mapped_region_content initWriter mfT [9, 8] fsEx rfl
  have hF := mapped_region_content initWriter mfF [] fsEx rfl
  have hcopy := hT.2.1 rfl
  obtain ⟨hretr, hdata, haddr⟩ := hcopy.2 tEx0 2 rfl (by decide)
  exact ⟨hT.1, hdata, haddr, hF.2.2 rfl fsEx rfl⟩

/-- C8: Termination marker: `record_trace_termination_event` with an absent
thread appends a frame carrying the reserved termination token — a
distinguished terminal marker, produced likewise for any (present or
absent) thread argument — and a reader that consumes such a frame enters the
`Exhausted` state: every further read or peek is invalid (fatal or empty),
so consuming the marker ends the frame stream. -/
theorem termination_marker (s w : TraceWriterState)
    (h : record_trace_termination_event s none = some w) :
    ∃ f : trace_frame, w.frames = s.frames ++ [f] ∧ isTerminationFrame f = true ∧
      (∀ (t : Option Int) (w2 : TraceWriterState),
        record_trace_termination_event s t = some w2 →
        ∃ f2 : trace_frame, w2.frames = s.frames ++ [f2] ∧
          isTerminationFrame f2 = true) ∧
      (∀ r : TraceReaderState, r.exhausted = false →
        r.stream.get? r.cursor = some (StreamItem.frame f) →
        ∃ r1, read_next_trace r = some (f, r1) ∧ r1.exhausted = true ∧
          try_read_next_trace r1 = TryResult.fatal ∧ read_next_trace r1 = none ∧
          peek_next_trace r1 = none) := by
  have h' : record_event s ((none : Option Int).getD 0) termination_token 0 [] = some w := h
  obtain ⟨hg, ht, hs⟩ := record_event_spec h'
  subst hs
  refine ⟨_, rfl, by simp [isTerminationFrame], ?_, ?_⟩
  · intro t w2 h2
    have h2' : record_event s (t.getD 0) termination_token 0 [] = some w2 := h2
    obtain ⟨hg2, ht2, hs2⟩ := record_event_spec h2'
    subst hs2
    exact ⟨_, rfl, by simp [isTerminationFrame]⟩
  · intro r hex hget
    have hr1 := read_next_trace_frame hex hget
    refine ⟨_, hr1, ?_, ?_, ?_, ?_⟩
    · simp [isTerminationFrame]
    · simp [try_read_next_trace, isTerminationFrame]
    · simp [read_next_trace, try_read_next_trace, isTerminationFrame]
    · simp [peek_next_trace, isTerminationFrame]

/-- Witness for C8: terminating a fresh session with no live thread. -/
theorem termination_marker_witness :
    ∃ f : trace_frame, wTerm.frames = initWriter.frames ++ [f] ∧
      isTerminationFrame f = true ∧
      (∀ (t : Option Int) (w2 : TraceWriterState),
        record_trace_termination_event initWriter t = some w2 →
        ∃ f2 : trace_frame, w2.frames = initWriter.frames ++ [f2] ∧
          isTerminationFrame f2 = true) ∧
      (∀ r : TraceReaderState, r.exhausted = false →
        r.stream.get? r.cursor = some (StreamItem.frame f) →
        ∃ r1, read_next_trace r = some (f, r1) ∧ r1.exhausted = true ∧
          try_read_next_trace r1 = TryResult.fatal ∧ read_next_trace r1 = none ∧
          peek_next_trace r1 = none) :=
  termination_marker initWriter wTerm (by decide)

/-- C9: Counter width bound: the `uint32_t` order counters only represent
values below `2^32`; storing the successor of `2^32 - 1` into such a field
wraps to 0 rather than growing without bound; in every reachable writer
session both stamped counters of every frame are below `2^32` (the
sequencer aborts rather than wrap); and a trace whose frames have strictly
increasing, positive, `uint32_t`-representable `global_time` necessarily has
fewer than `2^32` frames. -/
theorem counter_width_bound :
    (∀ n : Nat, uint32_store n < U32) ∧
    uint32_store (U32 - 1 + 1) = 0 ∧
    (∀ s : TraceWriterState, Reachable s →
      ∀ f ∈ s.frames, f.global_time < U32 ∧ f.thread_time < U32) ∧
    (∀ fs : List trace_frame,
      fs.Pairwise (fun a b => a.global_time < b.global_time) →
      (∀ f ∈ fs, 1 ≤ f.global_time ∧ f.global_time < U32) →
      fs.length < U32) := by
  refine ⟨?_, ?_, ?_, length_lt_of_strict_bounded⟩
  · intro n
    exact Nat.mod_lt _ (by norm_num [U32])
  · show (U32 - 1 + 1) % U32 = 0
    rw [show U32 - 1 + 1 = U32 by norm_num [U32], Nat.mod_self]
  · intro s hr f hf
    obtain ⟨_, _, h3, h4⟩ := (writerInv_reachable hr).gbound f hf
    exact ⟨h3, h4⟩

/-- Witness for C9: the wrap at the field width, the bounds on a concrete
reachable two-frame trace, and the length bound on its frame list. -/
theorem counter_width_bound_witness :
    uint32_store (U32 - 1 + 1) = 0 ∧
    (fEx1.global_time < U32 ∧ fEx1.thread_time < U32) ∧
    wEx2.frames.length < U32 :=
  ⟨counter_width_bound.2.1,
   counter_width_bound.2.2.1 wEx2
     (Reachable.step
       (Reachable.step Reachable.init
         (WriterStep.event initWriter wEx1 42 5 100 [1, 2] (by decide)))
       (WriterStep.event wEx1 wEx2 42 6 200 [3, 4] (by decide)))
     fEx1 (by decide),
   counter_width_bound.2.2.2 wEx2.frames (by decide) (by decide)⟩

/-- C10: Signed length at the recording interface: `record_data` takes its
length as the signed `ssize_t`, so a negative length (here `-1`) is
representable and accepted at the public interface; for every call with
`len ≥ 0` and a buffer holding at least `len` bytes, the block persisted
holds exactly `len` bytes. -/
theorem record_data_signed_length :
    (∃ len : Int, len < 0 ∧ ∀ (s : TraceWriterState) (addr : Nat) (buf : List Nat),
      (record_data s addr len buf).raw_blocks.length = s.raw_blocks.length + 1) ∧
    (∀ (s : TraceWriterState) (addr : Nat) (len : Int) (buf : List Nat),
      0 ≤ len → len.toNat ≤ buf.length →
      (record_data s addr len buf).raw_blocks =
        s.raw_blocks ++ [{ global_time := s.global_counter, addr := addr,
                           bytes := buf.take len.toNat }] ∧
      Int.ofNat (buf.take len.toNat).length = len) := by
  constructor
  · refine ⟨-1, by decide, ?_⟩
    intro s addr buf
    unfold record_data
    dsimp only
    rw [List.length_append]
    rfl
  · intro s addr len buf h0 hlb
    refine ⟨rfl, ?_⟩
    rw [List.length_take, Nat.min_eq_left hlb]
    exact Int.toNat_of_nonneg h0

/-- Witness for C10: persisting five bytes with length 5. -/
theorem record_data_signed_length_witness :
    (record_data initWriter 7 5 [1, 2, 3, 4, 5]).raw_blocks =
      initWriter.raw_blocks ++
        [{ global_time := initWriter.global_counter, addr := 7,
           bytes := [1, 2, 3, 4, 5].take (5 : Int).toNat }] ∧
    Int.ofNat (([1, 2, 3, 4, 5] : List Nat).take (5 : Int).toNat).length = 5 :=
  record_data_signed_length.2 initWriter 7 5 [1, 2, 3, 4, 5] (by decide) (by decide)

end Trace
